import Mathlib

/-!
Verification of the `SignatureValidator` parameter-signing protocol.

Shallow embedding of `src/app/utils/signature-validator.ts`: deterministic
parameter canonicalization, HMAC-SHA256 signing, and signature validation
with an optional replay-protection time window.

Modelling conventions:
* A JavaScript value reachable through a `Params` object is the inductive
  `JVal`.  A JS number is abstracted by the string `ToString` renders it to
  (this rendering is injective on JS numbers up to `-0`/`0`, which behave
  identically here); integer-valued numbers carry their usual decimal form.
* JS objects are association lists in insertion order; genuine JS objects
  never hold a key twice, so theorems that need it assume key `Nodup`.
* `Date.now()` is impure, so `validate` takes the current epoch-seconds
  reading `now` as an explicit argument.
* Machine integers do not overflow in the source (all arithmetic is on
  small epoch values and 32-bit hash words kept below `2 ^ 32` by explicit
  `% 2 ^ 32`), so words are plain `Nat` reduced mod `2 ^ 32`.
-/

/-- A JavaScript value occurring in a `Params` map:
string, number (abstracted by its `ToString` rendering), boolean, `null`,
`undefined`, array, or plain object (association list in insertion order). -/
inductive JVal where
  | str (s : String)
  | num (render : String)
  | bool (b : Bool)
  | null
  | undefined
  | arr (elems : List JVal)
  | obj (entries : List (String × JVal))

/-- The JS `Params` object: field name to value, in insertion order. -/
abbrev Params := List (String × JVal)

mutual

/-- JS `ToString` of a value (used by `_checkTimestamp` via `String(x)`).
Arrays render as the comma-join of their elements with `null`/`undefined`
elements rendering empty; plain objects render `[object Object]`. -/
def jsToString : JVal → String
  | .str s => s
  | .num r => r
  | .bool b => cond b "true" "false"
  | .null => "null"
  | .undefined => "undefined"
  | .arr xs => String.intercalate "," (jsToStringElems xs)
  | .obj _ => "[object Object]"

/-- `ToString` of the elements of a JS array (`Array.prototype.join`). -/
def jsToStringElems : List JVal → List String
  | [] => []
  | .null :: t => "" :: jsToStringElems t
  | .undefined :: t => "" :: jsToStringElems t
  | v :: t => jsToString v :: jsToStringElems t

end

/-- JS truthiness of a value: `""`, `0`, `NaN`, `null`, `undefined`,
`false` are falsy; everything else (including empty arrays/objects) is
truthy.  A number is falsy exactly when it is `±0` or `NaN`, i.e. when its
rendering is `"0"` or `"NaN"`. -/
def jsTruthy : JVal → Bool
  | .str s => !(s == "")
  | .num r => !(r == "0" || r == "NaN")
  | .bool b => b
  | .null => false
  | .undefined => false
  | .arr _ => true
  | .obj _ => true

/-! ## String order: JS default `sort()` compares by UTF-16 code units -/

/-- UTF-16 code units of one character: a BMP code point is itself, a
supplementary code point becomes a surrogate pair. -/
def encChar16 (c : Char) : List Nat :=
  if c.toNat < 0x10000 then [c.toNat]
  else [0xD800 + (c.toNat - 0x10000) / 0x400, 0xDC00 + (c.toNat - 0x10000) % 0x400]

/-- UTF-16 code units of a character list. -/
def utf16Chars : List Char → List Nat
  | [] => []
  | c :: cs => encChar16 c ++ utf16Chars cs

/-- UTF-16 code units of a string. -/
def utf16 (s : String) : List Nat :=
  utf16Chars s.toList

/-- Lexicographic `≤` on code-unit sequences. -/
def lexLe : List Nat → List Nat → Bool
  | [], _ => true
  | _ :: _, [] => false
  | a :: as, b :: bs => if a < b then true else if b < a then false else lexLe as bs

/-- JS default string comparison (`String.prototype <`-style order used by
`Array.prototype.sort`): lexicographic on UTF-16 code units. -/
def strLe (a b : String) : Prop :=
  lexLe (utf16 a) (utf16 b) = true

instance : DecidableRel strLe := fun a b => by
  unfold strLe; infer_instance

/-- Order on object entries induced by `strLe` on the keys. -/
def keyLe (p q : String × JVal) : Prop :=
  strLe p.1 q.1

instance : DecidableRel keyLe := fun p q => by
  unfold keyLe; infer_instance

/-! ## JSON serialization (`JSON.stringify`, compact form) -/

/-- `JSON.stringify` escaping of one character inside a string literal. -/
def jsonEscapeChar (c : Char) : String :=
  if c.toNat == 34 then "\\\""
  else if c.toNat == 92 then "\\\\"
  else if c.toNat == 8 then "\\b"
  else if c.toNat == 9 then "\\t"
  else if c.toNat == 10 then "\\n"
  else if c.toNat == 12 then "\\f"
  else if c.toNat == 13 then "\\r"
  else if c.toNat < 32 then
    "\\u00" ++ String.singleton ("0123456789abcdef".toList.getD (c.toNat / 16) '0')
            ++ String.singleton ("0123456789abcdef".toList.getD (c.toNat % 16) '0')
  else String.singleton c

/-- A JSON string literal: quoted, escaped. -/
def jsonQuote (s : String) : String :=
  "\"" ++ String.join (s.toList.map jsonEscapeChar) ++ "\""

mutual

/-- Compact `JSON.stringify` of a value.  `NaN`/`±Infinity` serialize as
`null`; an `undefined` standing alone never reaches this function from
`_normalizeValue` (its arm is the array-element rendering `null`). -/
def stringify : JVal → String
  | .str s => jsonQuote s
  | .num r => if r == "NaN" || r == "Infinity" || r == "-Infinity" then "null" else r
  | .bool b => cond b "true" "false"
  | .null => "null"
  | .undefined => "null"
  | .arr xs => "[" ++ String.intercalate "," (stringifyElems xs) ++ "]"
  | .obj l => "\x7b" ++ String.intercalate "," (stringifyEntries l) ++ "\x7d"

/-- `JSON.stringify` of array elements: `undefined` elements become `null`. -/
def stringifyElems : List JVal → List String
  | [] => []
  | .undefined :: t => "null" :: stringifyElems t
  | v :: t => stringify v :: stringifyElems t

/-- `JSON.stringify` of object entries: keys with `undefined` values are
dropped. -/
def stringifyEntries : List (String × JVal) → List String
  | [] => []
  | (_, .undefined) :: t => stringifyEntries t
  | (k, v) :: t => (jsonQuote k ++ ":" ++ stringify v) :: stringifyEntries t

end

/-! ## `SignatureValidator` private helpers -/

mutual

/-- `_sortObjectKeys`: recursively sort every object's entries by key
(JS `Object.keys(obj).sort()` order); arrays keep element order.
Abstraction note: the rebuilt JS object enumerates integer-like keys
numerically ahead of the rest, while this model keeps pure UTF-16
lexicographic order throughout; both orders are functions of the key set
alone, so canonical output stays order-independent either way and the two
only differ on maps with integer-like nested keys. -/
def sortObjectKeys : JVal → JVal
  | .arr xs => .arr (sortObjectKeysElems xs)
  | .obj l => .obj (List.insertionSort keyLe (sortObjectKeysEntries l))
  | v => v

/-- `_sortObjectKeys` mapped over array elements. -/
def sortObjectKeysElems : List JVal → List JVal
  | [] => []
  | v :: t => sortObjectKeys v :: sortObjectKeysElems t

/-- `_sortObjectKeys` mapped over the values of object entries. -/
def sortObjectKeysEntries : List (String × JVal) → List (String × JVal)
  | [] => []
  | (k, v) :: t => (k, sortObjectKeys v) :: sortObjectKeysEntries t

end

/-- `_isValidValue`: a value is kept unless it is `null`, `undefined`, the
empty string, an object with zero keys, or an empty array.  Numbers and
booleans (including `0` and `false`) are always kept. -/
def isValidValue : JVal → Bool
  | .null => false
  | .undefined => false
  | .str s => !(s == "")
  | .obj l => !l.isEmpty
  | .arr xs => !xs.isEmpty
  | _ => true

/-- `_normalizeValue`: objects and arrays serialize as compact JSON after
recursive key sorting; scalars render via JS `String(...)`. -/
def normalizeValue : JVal → String
  | .obj l => stringify (sortObjectKeys (.obj l))
  | .arr xs => stringify (sortObjectKeys (.arr xs))
  | v => jsToString v

/-! ## Percent-encoding (`encodeURIComponent`) -/

/-- Lowercase hex digits. -/
def hexDigit (n : Nat) : Char :=
  "0123456789abcdef".toList.getD n '0'

/-- Uppercase hex digits (percent-escapes use uppercase). -/
def hexDigitUpper (n : Nat) : Char :=
  "0123456789ABCDEF".toList.getD n '0'

/-- UTF-8 bytes of one code point. -/
def utf8EncodeNat (n : Nat) : List Nat :=
  if n < 0x80 then [n]
  else if n < 0x800 then [0xC0 + n / 0x40, 0x80 + n % 0x40]
  else if n < 0x10000 then
    [0xE0 + n / 0x1000, 0x80 + n / 0x40 % 0x40, 0x80 + n % 0x40]
  else
    [0xF0 + n / 0x40000, 0x80 + n / 0x1000 % 0x40, 0x80 + n / 0x40 % 0x40, 0x80 + n % 0x40]

/-- UTF-8 bytes of a string (the encoding `Buffer.from` and
`Hmac.update` apply to JS strings). -/
def utf8Bytes (s : String) : List Nat :=
  (s.toList.map (fun c => utf8EncodeNat c.toNat)).flatten

/-- `encodeURIComponent` keeps ASCII alphanumerics and `-_.!~*'()` and
percent-encodes every other character's UTF-8 bytes with uppercase hex. -/
def encodeURIComponent (s : String) : String :=
  String.join (s.toList.map fun c =>
    let n := c.toNat
    if (48 ≤ n && n ≤ 57) || (65 ≤ n && n ≤ 90) || (97 ≤ n && n ≤ 122) ||
        n == 45 || n == 95 || n == 46 || n == 33 || n == 126 || n == 42 ||
        n == 39 || n == 40 || n == 41 then
      String.singleton c
    else
      String.join ((utf8EncodeNat n).map fun b =>
        "%" ++ String.singleton (hexDigitUpper (b / 16)) ++ String.singleton (hexDigitUpper (b % 16))))

/-! ## Canonical string -/

/-- JS property read `params[key]`: the value stored under `key`
(`undefined` when absent). -/
def jsProp (params : Params) (key : String) : JVal :=
  (List.lookup key params).getD .undefined

/-- `_buildSignString`: sort the keys (JS default sort = UTF-16 code-unit
order), URL-encode each key and its normalized value, join as
`key=value` pairs with `&`. -/
def buildSignString (params : Params) : String :=
  let sortedKeys := List.insertionSort strLe (params.map Prod.fst)
  String.intercalate "&"
    (sortedKeys.map fun key =>
      encodeURIComponent key ++ "=" ++ encodeURIComponent (normalizeValue (jsProp params key)))

/-- The parameter filter at the head of `generateSignature`: drop entries
whose key is excluded or whose value fails `_isValidValue`. -/
def filterParams (excludeKeys : List String) (params : Params) : Params :=
  params.filter fun p => !excludeKeys.contains p.1 && isValidValue p.2

/-- The default exclude set `{'sign', 'signature'}`. -/
def defaultExcludeKeys : List String := ["sign", "signature"]

/-- JS object property assignment `obj[k] = v`: overwrite in place if the
key exists, otherwise append the new key last. -/
def jsSetKey (params : Params) (k : String) (v : JVal) : Params :=
  match params with
  | [] => [(k, v)]
  | (k', v') :: t => if k' == k then (k, v) :: t else (k', v') :: jsSetKey t k v

/-! ## Timestamp parsing and the replay-window check -/

/-- Code points JS StrWhiteSpace treats as whitespace — the set `parseInt`
skips and `String.prototype.trim` removes (WhiteSpace and LineTerminator
productions). -/
def jsIsWhitespace (c : Char) : Bool :=
  [0x9, 0xA, 0xB, 0xC, 0xD, 0x20, 0xA0, 0x1680, 0x2000, 0x2001, 0x2002, 0x2003,
   0x2004, 0x2005, 0x2006, 0x2007, 0x2008, 0x2009, 0x200A, 0x2028, 0x2029,
   0x202F, 0x205F, 0x3000, 0xFEFF].contains c.toNat

/-- Leading decimal-digit run of a character list, as a `Nat`, with the
rest; `none` when there is no leading digit. -/
def takeDigits : List Char → Nat → Bool → Option Nat
  | [], acc, seen => if seen then some acc else none
  | c :: t, acc, seen =>
    if c.isDigit then takeDigits t (acc * 10 + (c.toNat - 48)) true
    else if seen then some acc else none

/-- `parseInt(s, 10)`: skip leading whitespace, optional sign, then the
longest decimal-digit run; `none` models the `NaN` result. -/
def parseIntJS (s : String) : Option Int :=
  let cs := s.toList.dropWhile jsIsWhitespace
  match cs with
  | '-' :: t => (takeDigits t 0 false).map fun n => -(n : Int)
  | '+' :: t => (takeDigits t 0 false).map fun n => (n : Int)
  | t => (takeDigits t 0 false).map fun n => (n : Int)

/-- The exact value of a finite JS number recovered from its
(round-tripping) decimal rendering: optional sign, integer digits,
optional fraction, optional exponent.  The result `(m, k)` stands for the
rational `m / 10 ^ k`; `none` models `NaN`/`±Infinity`.  Comparisons of
such a value against integer bounds agree with the underlying double
comparisons because renderings round-trip. -/
def parseDecimal (s : String) : Option (Int × Nat) :=
  let core : List Char → Option (Int × Nat) := fun cs =>
    match takeDigits cs 0 false with
    | none => none
    | some intPart =>
      let rest := cs.dropWhile Char.isDigit
      let (m0, k0, fracRest) :=
        match rest with
        | '.' :: t =>
          match takeDigits t 0 false with
          | some f =>
            ((intPart : Int) * 10 ^ (t.takeWhile Char.isDigit).length + (f : Int),
             (t.takeWhile Char.isDigit).length, t.dropWhile Char.isDigit)
          | none => ((intPart : Int), 0, rest)
        | _ => ((intPart : Int), 0, rest)
      match fracRest with
      | [] => some (m0, k0)
      | 'e' :: '-' :: t => (takeDigits t 0 false).map fun e => (m0, k0 + e)
      | 'e' :: '+' :: t => (takeDigits t 0 false).map fun e =>
          if k0 ≤ e then (m0 * 10 ^ (e - k0), 0) else (m0, k0 - e)
      | 'e' :: t => (takeDigits t 0 false).map fun e =>
          if k0 ≤ e then (m0 * 10 ^ (e - k0), 0) else (m0, k0 - e)
      | _ => none
  match s.toList with
  | '-' :: t => (core t).map fun p => (-p.1, p.2)
  | t => core t

/-- `_checkTimestamp`: a number uses its own value, anything else goes
through `parseInt(String(x), 10)`; `NaN` fails, otherwise the timestamp
must lie within `tolerance` seconds of `now`.  For a number value
`m / 10 ^ k` the bound `|now - m / 10 ^ k| ≤ tolerance` is written with
the (positive) denominator cleared. -/
def checkTimestamp (now : Int) (timestamp : JVal) (tolerance : Int) : Bool :=
  match timestamp with
  | .num r =>
    match parseDecimal r with
    | none => false
    | some (m, k) => |now * 10 ^ k - m| ≤ tolerance * 10 ^ k
  | v =>
    match parseIntJS (jsToString v) with
    | none => false
    | some ts => |now - ts| ≤ tolerance

/-! ## SHA-256 and HMAC (`crypto.createHmac('sha256', secret)`) -/

/-- Truncation to a 32-bit word. -/
def m32 (n : Nat) : Nat := n % 2 ^ 32

/-- 32-bit addition. -/
def add32 (a b : Nat) : Nat := m32 (a + b)

/-- 32-bit right rotation by `k` (for `k ≤ 32`). -/
def rotr32 (k n : Nat) : Nat := n / 2 ^ k + n % 2 ^ k * 2 ^ (32 - k)

/-- The SHA-256 working state: eight 32-bit words. -/
structure Sha256State where
  a : Nat
  b : Nat
  c : Nat
  d : Nat
  e : Nat
  f : Nat
  g : Nat
  h : Nat

/-- SHA-256 initial hash value. -/
def sha256Init : Sha256State :=
  ⟨1779033703, 3144134277, 1013904242, 2773480762,
   1359893119, 2600822924, 528734635, 1541459225⟩

/-- SHA-256 round constants (FIPS 180-4, in decimal). -/
def sha256K : List Nat :=
  [1116352408, 1899447441, 3049323471, 3921009573, 961987163,
   1508970993, 2453635748, 2870763221, 3624381080, 310598401,
   607225278, 1426881987, 1925078388, 2162078206, 2614888103,
   3248222580, 3835390401, 4022224774, 264347078, 604807628,
   770255983, 1249150122, 1555081692, 1996064986, 2554220882,
   2821834349, 2952996808, 3210313671, 3336571891, 3584528711,
   113926993, 338241895, 666307205, 773529912, 1294757372,
   1396182291, 1695183700, 1986661051, 2177026350, 2456956037,
   2730485921, 2820302411, 3259730800, 3345764771, 3516065817,
   3600352804, 4094571909, 275423344, 430227734, 506948616,
   659060556, 883997877, 958139571, 1322822218, 1537002063,
   1747873779, 1955562222, 2024104815, 2227730452, 2361852424,
   2428436474, 2756734187, 3204031479, 3329325298]

/-- Big-sigma-0. -/
def bsig0 (x : Nat) : Nat := (rotr32 2 x) ^^^ (rotr32 13 x) ^^^ (rotr32 22 x)

/-- Big-sigma-1. -/
def bsig1 (x : Nat) : Nat := (rotr32 6 x) ^^^ (rotr32 11 x) ^^^ (rotr32 25 x)

/-- Small-sigma-0. -/
def ssig0 (x : Nat) : Nat := (rotr32 7 x) ^^^ (rotr32 18 x) ^^^ (x >>> 3)

/-- Small-sigma-1. -/
def ssig1 (x : Nat) : Nat := (rotr32 17 x) ^^^ (rotr32 19 x) ^^^ (x >>> 10)

/-- The first 16 words of the message schedule from a 64-byte block. -/
def scheduleInit : List Nat → List Nat
  | b0 :: b1 :: b2 :: b3 :: rest =>
    (((b0 * 256 + b1) * 256 + b2) * 256 + b3) :: scheduleInit rest
  | _ => []

/-- Extend the message schedule from 16 to 64 words. -/
def scheduleExtend (w : List Nat) : List Nat :=
  (List.range 48).foldl
    (fun ws i =>
      ws ++ [m32 (ssig1 (ws.getD (i + 14) 0) + ws.getD (i + 9) 0 +
                  ssig0 (ws.getD (i + 1) 0) + ws.getD i 0)])
    w

/-- One SHA-256 round. -/
def sha256Round (st : Sha256State) (kw : Nat × Nat) : Sha256State :=
  let t1 := add32 st.h (add32 (bsig1 st.e) (add32 ((st.e &&& st.f) ^^^ ((2 ^ 32 - 1 - st.e) &&& st.g))
    (add32 kw.1 kw.2)))
  let t2 := add32 (bsig0 st.a) ((st.a &&& st.b) ^^^ (st.a &&& st.c) ^^^ (st.b &&& st.c))
  ⟨add32 t1 t2, st.a, st.b, st.c, add32 st.d t1, st.e, st.f, st.g⟩

/-- Compress one 64-byte block into the running state. -/
def sha256Compress (st : Sha256State) (block : List Nat) : Sha256State :=
  let w := scheduleExtend (scheduleInit block)
  let r := (sha256K.zip w).foldl sha256Round st
  ⟨add32 st.a r.a, add32 st.b r.b, add32 st.c r.c, add32 st.d r.d,
   add32 st.e r.e, add32 st.f r.f, add32 st.g r.g, add32 st.h r.h⟩

/-- SHA-256 padding: `0x80`, zeros to 56 mod 64, then the bit length as
eight big-endian bytes. -/
def sha256Pad (msg : List Nat) : List Nat :=
  let len := msg.length
  let lenBits := 8 * len
  msg ++ [0x80] ++ List.replicate ((119 - len % 64) % 64) 0 ++
    [lenBits / 2 ^ 56 % 256, lenBits / 2 ^ 48 % 256, lenBits / 2 ^ 40 % 256,
     lenBits / 2 ^ 32 % 256, lenBits / 2 ^ 24 % 256, lenBits / 2 ^ 16 % 256,
     lenBits / 2 ^ 8 % 256, lenBits % 256]

/-- Feed bytes one at a time, compressing every full 64-byte block. -/
def sha256Absorb (acc : Sha256State × List Nat) (byte : Nat) : Sha256State × List Nat :=
  let buf := acc.2 ++ [byte]
  if buf.length == 64 then (sha256Compress acc.1 buf, []) else (acc.1, buf)

/-- Big-endian bytes of a 32-bit word. -/
def wordBytes (n : Nat) : List Nat :=
  [n / 2 ^ 24 % 256, n / 2 ^ 16 % 256, n / 2 ^ 8 % 256, n % 256]

/-- The 32-byte digest of a final state. -/
def sha256Digest (st : Sha256State) : List Nat :=
  wordBytes st.a ++ wordBytes st.b ++ wordBytes st.c ++ wordBytes st.d ++
  wordBytes st.e ++ wordBytes st.f ++ wordBytes st.g ++ wordBytes st.h

/-- SHA-256 of a byte sequence. -/
def sha256 (msg : List Nat) : List Nat :=
  sha256Digest ((sha256Pad msg).foldl (fun acc b => sha256Absorb acc b) (sha256Init, [])).1

/-- HMAC-SHA256 over bytes: hash long keys, zero-pad to the 64-byte block,
XOR with the inner/outer pads, and nest two hashes. -/
def hmacSha256 (key msg : List Nat) : List Nat :=
  let k0 := if key.length > 64 then sha256 key else key
  let kp := k0 ++ List.replicate (64 - k0.length) 0
  let ipad := kp.map fun b => b ^^^ 0x36
  let opad := kp.map fun b => b ^^^ 0x5c
  sha256 (opad ++ sha256 (ipad ++ msg))

/-- Render a digest as lowercase hex (`.digest('hex')`). -/
def toHex (bytes : List Nat) : String :=
  String.mk ((bytes.map fun b => [hexDigit (b / 16 % 16), hexDigit (b % 16)]).flatten)

/-- `crypto.createHmac('sha256', secret).update(s).digest('hex')`. -/
def hmacSha256Hex (secret s : String) : String :=
  toHex (hmacSha256 (utf8Bytes secret) (utf8Bytes s))

/-! ## The `SignatureValidator` class -/

/-- A constructed validator instance: it holds only the immutable secret. -/
structure SignatureValidator where
  secret : String

/-- JS `String.prototype.trim`. -/
def jsTrim (s : String) : String :=
  String.mk ((s.toList.dropWhile jsIsWhitespace).reverse.dropWhile jsIsWhitespace |>.reverse)

/-- The constructor: `throw` on an empty or all-whitespace secret
(modelled as `none`), otherwise the instance.  This is the only operation
of the class that can fail; every other one below is a total function. -/
def SignatureValidator.make (secret : String) : Option SignatureValidator :=
  if secret == "" || jsTrim secret == "" then none else some ⟨secret⟩

/-- `generateSignature(params, timestamp, excludeKeys)`: filter the
parameters, optionally overwrite `timestamp` with the externally supplied
one, build the canonical string, and HMAC-SHA256 it to lowercase hex.
`none` arguments model the JS `null` defaults. -/
def SignatureValidator.generateSignature (v : SignatureValidator) (params : Params)
    (timestamp : Option Int) (excludeKeys : Option (List String)) : String :=
  let finalExcludeKeys := excludeKeys.getD defaultExcludeKeys
  let filtered := filterParams finalExcludeKeys params
  let filtered :=
    match timestamp with
    | none => filtered
    | some t => jsSetKey filtered "timestamp" (.num (toString t))
  hmacSha256Hex v.secret (buildSignString filtered)

/-- `crypto.timingSafeEqual` over `Buffer.from` of two strings, wrapped in
the `try`/`catch` of `validate`: buffers of unequal byte length throw,
which the handler turns into `false`; equal-length buffers compare
byte-for-byte in constant time. -/
def timingSafeEqualStr (a b : String) : Bool :=
  if (utf8Bytes a).length == (utf8Bytes b).length then a == b else false

/-- The replay gate at the top of `validate`: it runs only when a
tolerance was supplied *and* `params.timestamp` is truthy, and then
defers to `_checkTimestamp`. -/
def tsGatePasses (now : Int) (params : Params) (timestampTolerance : Option Int) : Bool :=
  match timestampTolerance with
  | none => true
  | some tol =>
    let ts := jsProp params "timestamp"
    if jsTruthy ts then checkTimestamp now ts tol else true

/-- `validate(params, signature, timestampTolerance)`: replay gate first,
then recompute the expected signature with all-default arguments and
compare in constant time.  `now` is the `Math.floor(Date.now() / 1000)`
reading. -/
def SignatureValidator.validate (v : SignatureValidator) (now : Int) (params : Params)
    (signature : String) (timestampTolerance : Option Int) : Bool :=
  if tsGatePasses now params timestampTolerance then
    timingSafeEqualStr (v.generateSignature params none none) signature
  else false

/-! ## Order properties of the key comparison -/

theorem lexLe_total : ∀ a b : List Nat, lexLe a b = true ∨ lexLe b a = true
  | [], _ => by left; rfl
  | _ :: _, [] => by right; rfl
  | a :: as, b :: bs => by
    rcases Nat.lt_trichotomy a b with h | h | h
    · left; simp [lexLe, h]
    · subst h
      rcases lexLe_total as bs with ih | ih
      · left; simpa [lexLe] using ih
      · right; simpa [lexLe] using ih
    · right; simp [lexLe, h]

theorem lexLe_trans : ∀ {a b c : List Nat},
    lexLe a b = true → lexLe b c = true → lexLe a c = true
  | [], _, _, _, _ => rfl
  | _ :: _, [], _, h, _ => by simp [lexLe] at h
  | _ :: _, _ :: _, [], _, h => by simp [lexLe] at h
  | a :: as, b :: bs, c :: cs, h₁, h₂ => by
    simp only [lexLe] at h₁ h₂ ⊢
    split at h₁
    · split at h₂
      · simp [show a < c by omega]
      · split at h₂
        · exact absurd h₂ (by simp)
        · simp [show a < c by omega]
    · split at h₁
      · exact absurd h₁ (by simp)
      · split at h₂
        · simp [show a < c by omega]
        · split at h₂
          · exact absurd h₂ (by simp)
          · have : ¬ a < c := by omega
            simp only [if_neg this, show ¬ c < a by omega, if_neg]
            exact lexLe_trans h₁ h₂

theorem lexLe_antisymm : ∀ {a b : List Nat},
    lexLe a b = true → lexLe b a = true → a = b
  | [], [], _, _ => rfl
  | [], _ :: _, _, h => by simp [lexLe] at h
  | _ :: _, [], h, _ => by simp [lexLe] at h
  | a :: as, b :: bs, h₁, h₂ => by
    simp only [lexLe] at h₁ h₂
    split at h₁
    · rename_i hab
      rw [if_neg (by omega), if_pos hab] at h₂
      exact absurd h₂ (by simp)
    · split at h₁
      · exact absurd h₁ (by simp)
      · have hba : a = b := by omega
        subst hba
        rw [if_neg (by omega), if_neg (by omega)] at h₂
        rw [lexLe_antisymm h₁ h₂]

instance : IsTotal String strLe := ⟨fun a b => lexLe_total (utf16 a) (utf16 b)⟩

instance : IsTrans String strLe := ⟨fun _ _ _ => lexLe_trans⟩

instance : IsTotal (String × JVal) keyLe := ⟨fun a b => lexLe_total (utf16 a.1) (utf16 b.1)⟩

instance : IsTrans (String × JVal) keyLe := ⟨fun _ _ _ => lexLe_trans⟩

theorem char_isValid (c : Char) : c.toNat < 55296 ∨ 57343 < c.toNat ∧ c.toNat < 1114112 :=
  c.valid

theorem encChar16_ne_nil (c : Char) : encChar16 c ≠ [] := by
  unfold encChar16; split <;> simp

theorem utf16Chars_inj : ∀ {cs ds : List Char}, utf16Chars cs = utf16Chars ds → cs = ds
  | [], [], _ => rfl
  | [], d :: dt, h => by
    rw [utf16Chars, utf16Chars] at h
    exact absurd (List.append_eq_nil.mp h.symm).1 (encChar16_ne_nil d)
  | c :: ct, [], h => by
    rw [utf16Chars, utf16Chars] at h
    exact absurd (List.append_eq_nil.mp h).1 (encChar16_ne_nil c)
  | c :: ct, d :: dt, h => by
    rw [utf16Chars, utf16Chars] at h
    have hc := char_isValid c
    have hd := char_isValid d
    unfold encChar16 at h
    split at h <;> split at h <;> simp only [List.cons_append, List.nil_append,
      List.cons.injEq] at h
    · -- both BMP
      have : c = d := by
        have := h.1
        rw [← Char.ofNat_toNat c, ← Char.ofNat_toNat d, this]
      rw [this, utf16Chars_inj h.2]
    · -- BMP head equals a high surrogate: impossible for a valid scalar
      rename_i h₁ h₂
      have hq : (d.toNat - 0x10000) / 0x400 < 0x400 := by omega
      omega
    · rename_i h₁ h₂
      have hq : (c.toNat - 0x10000) / 0x400 < 0x400 := by omega
      omega
    · -- both supplementary: recover the code point from the pair
      rename_i h₁ h₂
      obtain ⟨hhi, hlo, htl⟩ := h
      have hc2 : c.toNat - 0x10000 =
          0x400 * ((c.toNat - 0x10000) / 0x400) + (c.toNat - 0x10000) % 0x400 :=
        (Nat.div_add_mod _ _).symm
      have hd2 : d.toNat - 0x10000 =
          0x400 * ((d.toNat - 0x10000) / 0x400) + (d.toNat - 0x10000) % 0x400 :=
        (Nat.div_add_mod _ _).symm
      have : c.toNat = d.toNat := by omega
      have hcd : c = d := by
        rw [← Char.ofNat_toNat c, ← Char.ofNat_toNat d, this]
      rw [hcd, utf16Chars_inj htl]

theorem utf16_inj {s t : String} (h : utf16 s = utf16 t) : s = t :=
  String.ext (utf16Chars_inj h)

instance : IsAntisymm String strLe :=
  ⟨fun _ _ h₁ h₂ => utf16_inj (lexLe_antisymm h₁ h₂)⟩

/-! ## Sorting and lookup under permutation -/

/-- Two permuted key lists sort to the same list: `strLe` is a total,
transitive, antisymmetric order on strings. -/
theorem sortedKeys_eq_of_perm {l₁ l₂ : List String} (hp : l₁.Perm l₂) :
    List.insertionSort strLe l₁ = List.insertionSort strLe l₂ :=
  List.eq_of_perm_of_sorted
    ((List.perm_insertionSort strLe l₁).trans (hp.trans (List.perm_insertionSort strLe l₂).symm))
    (List.sorted_insertionSort strLe l₁) (List.sorted_insertionSort strLe l₂)

/-- Permuted entry lists with duplicate-free keys have equal key-sorted
forms; antisymmetry holds here only thanks to the key `Nodup`. -/
theorem sorted_entries_eq_of_perm : ∀ {s₁ s₂ : List (String × JVal)},
    s₁.Perm s₂ → s₁.Sorted keyLe → s₂.Sorted keyLe → (s₁.map Prod.fst).Nodup → s₁ = s₂ := by
  intro s₁
  induction s₁ with
  | nil => intro s₂ hp _ _ _; exact hp.nil_eq
  | cons a t ih =>
    intro s₂ hp hs₁ hs₂ hnd
    match s₂ with
    | [] => exact absurd hp.symm.nil_eq (by simp)
    | b :: t' =>
      have hab : a = b := by
        by_cases heq : a = b
        · exact heq
        · have ha' : a ∈ t' :=
            (List.mem_cons.mp (hp.subset (List.mem_cons_self a t))).resolve_left heq
          have hb' : b ∈ t :=
            (List.mem_cons.mp (hp.symm.subset (List.mem_cons_self b t'))).resolve_left
              fun h => heq h.symm
          have h₁ : keyLe a b := List.rel_of_sorted_cons hs₁ b hb'
          have h₂ : keyLe b a := List.rel_of_sorted_cons hs₂ a ha'
          have hk : a.1 = b.1 := utf16_inj (lexLe_antisymm h₁ h₂)
          rw [List.map_cons] at hnd
          exact absurd (hk ▸ List.mem_map_of_mem Prod.fst hb') (List.nodup_cons.mp hnd).1
      subst hab
      rw [List.map_cons] at hnd
      rw [ih hp.cons_inv hs₁.of_cons hs₂.of_cons (List.nodup_cons.mp hnd).2]

/-- `insertionSort keyLe` sends permuted entry lists with duplicate-free
keys to the same result. -/
theorem insertionSort_entries_eq_of_perm {l₁ l₂ : List (String × JVal)} (hp : l₁.Perm l₂)
    (hnd : (l₁.map Prod.fst).Nodup) :
    List.insertionSort keyLe l₁ = List.insertionSort keyLe l₂ :=
  sorted_entries_eq_of_perm
    ((List.perm_insertionSort keyLe l₁).trans (hp.trans (List.perm_insertionSort keyLe l₂).symm))
    (List.sorted_insertionSort keyLe l₁) (List.sorted_insertionSort keyLe l₂)
    (((List.perm_insertionSort keyLe l₁).map Prod.fst).nodup_iff.mpr hnd)

/-- Key lookup is permutation-invariant on maps with duplicate-free keys. -/
theorem lookup_eq_of_perm {l₁ l₂ : Params} (hp : l₁.Perm l₂) :
    (l₁.map Prod.fst).Nodup → ∀ k : String, List.lookup k l₁ = List.lookup k l₂ := by
  induction hp with
  | nil => intro _ _; rfl
  | cons x p ih =>
    intro hnd k
    obtain ⟨xk, xv⟩ := x
    simp only [List.map_cons] at hnd
    simp only [List.lookup]
    by_cases hkx : (k == xk) = true
    · simp [hkx]
    · simp only [Bool.not_eq_true] at hkx
      simp only [hkx]
      exact ih (List.nodup_cons.mp hnd).2 k
  | swap x y l =>
    intro hnd k
    obtain ⟨xk, xv⟩ := x
    obtain ⟨yk, yv⟩ := y
    simp only [List.map_cons] at hnd
    have hne : yk ≠ xk := by
      intro h
      exact (List.nodup_cons.mp hnd).1 (h ▸ List.mem_cons_self xk _)
    simp only [List.lookup]
    by_cases hky : (k == yk) = true
    · by_cases hkx : (k == xk) = true
      · exact absurd ((eq_of_beq hky).symm.trans (eq_of_beq hkx)) hne
      · simp only [Bool.not_eq_true] at hkx
        simp [hky, hkx]
    · by_cases hkx : (k == xk) = true
      · simp only [Bool.not_eq_true] at hky
        simp [hky, hkx]
      · simp only [Bool.not_eq_true] at hky hkx
        simp [hky, hkx]
  | trans p₁ _ ih₁ ih₂ =>
    intro hnd k
    rw [ih₁ hnd k, ih₂ ((p₁.map Prod.fst).nodup_iff.mp hnd) k]

/-- Property read is permutation-invariant on maps with duplicate-free
keys. -/
theorem jsProp_eq_of_perm {l₁ l₂ : Params} (hp : l₁.Perm l₂)
    (hnd : (l₁.map Prod.fst).Nodup) (k : String) :
    jsProp l₁ k = jsProp l₂ k := by
  unfold jsProp
  rw [lookup_eq_of_perm hp hnd k]

/-- The canonical string is permutation-invariant on maps with
duplicate-free keys. -/
theorem buildSignString_eq_of_perm {l₁ l₂ : Params} (hp : l₁.Perm l₂)
    (hnd : (l₁.map Prod.fst).Nodup) :
    buildSignString l₁ = buildSignString l₂ := by
  unfold buildSignString
  rw [sortedKeys_eq_of_perm (hp.map Prod.fst)]
  exact congrArg (String.intercalate "&") (List.map_congr_left fun k _ => by
    rw [jsProp_eq_of_perm hp hnd k])

/-! ## Semantic equality of parameter maps (order-independence, C4) -/

mutual

/-- Two JS values are semantically equal when they agree up to the
insertion order of object entries, at every nesting depth.  Object maps
carry duplicate-free keys (as every genuine JS object does); an object on
the left is related to a reordering (`List.Perm`) of an entrywise-related
list. -/
inductive JEquiv : JVal → JVal → Prop where
  | str (s : String) : JEquiv (.str s) (.str s)
  | num (r : String) : JEquiv (.num r) (.num r)
  | bool (b : Bool) : JEquiv (.bool b) (.bool b)
  | null : JEquiv .null .null
  | undefined : JEquiv .undefined .undefined
  | arr {xs ys : List JVal} : JListEquiv xs ys → JEquiv (.arr xs) (.arr ys)
  | obj {l₁ l l₂ : List (String × JVal)} : (l₁.map Prod.fst).Nodup →
      JEntriesEquiv l₁ l → l.Perm l₂ → JEquiv (.obj l₁) (.obj l₂)

/-- Elementwise semantic equality of array elements (order preserved). -/
inductive JListEquiv : List JVal → List JVal → Prop where
  | nil : JListEquiv [] []
  | cons {x y : JVal} {xs ys : List JVal} :
      JEquiv x y → JListEquiv xs ys → JListEquiv (x :: xs) (y :: ys)

/-- Entrywise semantic equality of object entries: same keys in the same
order, semantically equal values. -/
inductive JEntriesEquiv : List (String × JVal) → List (String × JVal) → Prop where
  | nil : JEntriesEquiv [] []
  | cons {k : String} {v w : JVal} {l₁ l₂ : List (String × JVal)} :
      JEquiv v w → JEntriesEquiv l₁ l₂ → JEntriesEquiv ((k, v) :: l₁) ((k, w) :: l₂)

end

/-- Entrywise-equal entry lists have identical key sequences. -/
theorem jEntriesEquiv_keys : ∀ {l₁ l₂ : List (String × JVal)},
    JEntriesEquiv l₁ l₂ → l₁.map Prod.fst = l₂.map Prod.fst
  | _, _, .nil => rfl
  | _, _, .cons _ ht => by
    rw [List.map_cons, List.map_cons, jEntriesEquiv_keys ht]

/-- `_sortObjectKeys` over entries is a `map` over the values. -/
theorem sortObjectKeysEntries_eq_map (l : List (String × JVal)) :
    sortObjectKeysEntries l = l.map fun p => (p.1, sortObjectKeys p.2) := by
  induction l with
  | nil => rfl
  | cons p t ih =>
    obtain ⟨k, v⟩ := p
    rw [sortObjectKeysEntries, ih, List.map_cons]

/-- `_sortObjectKeys` over entries keeps the key sequence. -/
theorem sortObjectKeysEntries_keys (l : List (String × JVal)) :
    (sortObjectKeysEntries l).map Prod.fst = l.map Prod.fst := by
  rw [sortObjectKeysEntries_eq_map, List.map_map]
  rfl

mutual

/-- `_sortObjectKeys` identifies semantically equal values: the recursive
key sort erases insertion order at every depth. -/
theorem sortObjectKeys_congr : ∀ {v w : JVal}, JEquiv v w →
    sortObjectKeys v = sortObjectKeys w
  | _, _, .str _ => rfl
  | _, _, .num _ => rfl
  | _, _, .bool _ => rfl
  | _, _, .null => rfl
  | _, _, .undefined => rfl
  | _, _, .arr h => by
    rw [sortObjectKeys, sortObjectKeys, sortObjectKeysElems_congr h]
  | _, _, .obj hnd he hp => by
    rw [sortObjectKeys, sortObjectKeys]
    rename_i l₁ l l₂
    have h₁ : sortObjectKeysEntries l₁ = sortObjectKeysEntries l :=
      sortObjectKeysEntries_congr he
    have h₂ : (sortObjectKeysEntries l).Perm (sortObjectKeysEntries l₂) := by
      rw [sortObjectKeysEntries_eq_map, sortObjectKeysEntries_eq_map]
      exact hp.map _
    have h₃ : ((sortObjectKeysEntries l).map Prod.fst).Nodup := by
      rw [sortObjectKeysEntries_keys, ← jEntriesEquiv_keys he]
      exact hnd
    rw [h₁, insertionSort_entries_eq_of_perm h₂ h₃]

/-- Congruence of the array-element sort. -/
theorem sortObjectKeysElems_congr : ∀ {xs ys : List JVal}, JListEquiv xs ys →
    sortObjectKeysElems xs = sortObjectKeysElems ys
  | _, _, .nil => rfl
  | _, _, .cons h ht => by
    rw [sortObjectKeysElems, sortObjectKeysElems, sortObjectKeys_congr h,
      sortObjectKeysElems_congr ht]

/-- Congruence of the entry-value sort. -/
theorem sortObjectKeysEntries_congr : ∀ {l₁ l₂ : List (String × JVal)},
    JEntriesEquiv l₁ l₂ → sortObjectKeysEntries l₁ = sortObjectKeysEntries l₂
  | _, _, .nil => rfl
  | _, _, .cons h ht => by
    rw [sortObjectKeysEntries, sortObjectKeysEntries, sortObjectKeys_congr h,
      sortObjectKeysEntries_congr ht]

end

/-- Semantically equal values are equally "empty" for `_isValidValue`. -/
theorem isValidValue_congr {v w : JVal} (h : JEquiv v w) :
    isValidValue v = isValidValue w := by
  cases h with
  | str _ => rfl
  | num _ => rfl
  | bool _ => rfl
  | null => rfl
  | undefined => rfl
  | arr hl => cases hl with
    | nil => rfl
    | cons _ _ => rfl
  | obj hnd he hp =>
    rename_i l₁ l l₂
    have h₁ : l₁.length = l.length := by
      have := congrArg List.length (jEntriesEquiv_keys he)
      simpa using this
    have h₂ : l.length = l₂.length := hp.length_eq
    have hlen : l₁.length = l₂.length := h₁.trans h₂
    cases l₁ with
    | nil =>
      cases l₂ with
      | nil => rfl
      | cons _ _ => simp at hlen
    | cons _ _ =>
      cases l₂ with
      | nil => simp at hlen
      | cons _ _ => rfl

/-- Semantically equal values normalize to the same canonical text. -/
theorem normalizeValue_congr {v w : JVal} (h : JEquiv v w) :
    normalizeValue v = normalizeValue w := by
  cases h with
  | str _ => rfl
  | num _ => rfl
  | bool _ => rfl
  | null => rfl
  | undefined => rfl
  | arr hl =>
    show stringify (sortObjectKeys (.arr _)) = stringify (sortObjectKeys (.arr _))
    rw [sortObjectKeys_congr (.arr hl)]
  | obj hnd he hp =>
    show stringify (sortObjectKeys (.obj _)) = stringify (sortObjectKeys (.obj _))
    rw [sortObjectKeys_congr (.obj hnd he hp)]

/-- The parameter filter respects entrywise semantic equality. -/
theorem filterParams_jEntriesEquiv (ex : List String) :
    ∀ {l₁ l₂ : List (String × JVal)}, JEntriesEquiv l₁ l₂ →
      JEntriesEquiv (filterParams ex l₁) (filterParams ex l₂)
  | _, _, .nil => .nil
  | _, _, .cons hv ht => by
    rename_i k v w t₁ t₂
    unfold filterParams
    rw [List.filter_cons, List.filter_cons]
    have hval : isValidValue v = isValidValue w := isValidValue_congr hv
    by_cases hk : (!ex.contains k && isValidValue v) = true
    · rw [if_pos hk, if_pos (by rw [← hval]; exact hk)]
      exact .cons hv (filterParams_jEntriesEquiv ex ht)
    · rw [if_neg hk, if_neg (by rw [← hval]; exact hk)]
      exact filterParams_jEntriesEquiv ex ht

/-- Entrywise-equal maps yield the same normalized text at every key. -/
theorem jsProp_norm_jEntriesEquiv : ∀ {l₁ l₂ : List (String × JVal)},
    JEntriesEquiv l₁ l₂ → ∀ k : String,
      normalizeValue (jsProp l₁ k) = normalizeValue (jsProp l₂ k)
  | _, _, .nil, _ => rfl
  | _, _, .cons hv ht, k => by
    rename_i k' v w t₁ t₂
    unfold jsProp
    simp only [List.lookup]
    by_cases hk : (k == k') = true
    · simp only [hk]
      exact normalizeValue_congr hv
    · simp only [Bool.not_eq_true] at hk
      simp only [hk]
      exact jsProp_norm_jEntriesEquiv ht k

/-- Entrywise-equal maps build the same canonical string. -/
theorem buildSignString_jEntriesEquiv {l₁ l₂ : List (String × JVal)}
    (h : JEntriesEquiv l₁ l₂) :
    buildSignString l₁ = buildSignString l₂ := by
  unfold buildSignString
  rw [jEntriesEquiv_keys h]
  exact congrArg (String.intercalate "&") (List.map_congr_left fun k _ => by
    rw [jsProp_norm_jEntriesEquiv h k])

/-- Semantically equal parameter maps (any exclude set) have identical
canonical strings after filtering. -/
theorem buildSignString_filter_congr {P P' : Params} (ex : List String)
    (h : JEquiv (.obj P) (.obj P')) :
    buildSignString (filterParams ex P) = buildSignString (filterParams ex P') := by
  cases h with
  | obj hnd he hp =>
    rename_i l
    have step₁ : buildSignString (filterParams ex P) = buildSignString (filterParams ex l) :=
      buildSignString_jEntriesEquiv (filterParams_jEntriesEquiv ex he)
    have hperm : (filterParams ex l).Perm (filterParams ex P') := hp.filter _
    have hsub : (filterParams ex l).Sublist l := List.filter_sublist l
    have hndl : (l.map Prod.fst).Nodup := jEntriesEquiv_keys he ▸ hnd
    have hndf : ((filterParams ex l).map Prod.fst).Nodup :=
      (hsub.map Prod.fst).nodup hndl
    rw [step₁, buildSignString_eq_of_perm hperm hndf]

/-! ## Shape of the hex digest -/

theorem sha256_length (msg : List Nat) : (sha256 msg).length = 32 := by
  simp [sha256, sha256Digest, wordBytes]

theorem hmacSha256_length (key msg : List Nat) : (hmacSha256 key msg).length = 32 := by
  unfold hmacSha256
  exact sha256_length _

theorem hexDigit_mem (n : Nat) : hexDigit n ∈ "0123456789abcdef".toList := by
  unfold hexDigit
  by_cases h : n < 16
  · interval_cases n <;> decide
  · rw [List.getD_eq_default]
    · decide
    · have h16 : ("0123456789abcdef".toList).length = 16 := rfl
      omega

theorem hexChars_ascii : ∀ c ∈ "0123456789abcdef".toList, c.toNat < 128 := by decide

/-- The characters of `toHex` output, as a list. -/
theorem toHex_data (bytes : List Nat) :
    (toHex bytes).toList = (bytes.map fun b => [hexDigit (b / 16 % 16), hexDigit (b % 16)]).flatten :=
  rfl

theorem toHex_length (bytes : List Nat) : (toHex bytes).length = 2 * bytes.length := by
  show ((bytes.map fun b => [hexDigit (b / 16 % 16), hexDigit (b % 16)]).flatten).length =
    2 * bytes.length
  induction bytes with
  | nil => rfl
  | cons b t ih =>
    rw [List.map_cons, List.flatten_cons, List.length_append, ih]
    simp only [List.length_cons, List.length_nil, List.length_singleton]
    omega

theorem toHex_mem {bytes : List Nat} {c : Char} (hc : c ∈ (toHex bytes).toList) :
    c ∈ "0123456789abcdef".toList := by
  rw [toHex_data] at hc
  obtain ⟨l, hl, hcl⟩ := List.mem_flatten.mp hc
  obtain ⟨b, _, rfl⟩ := List.mem_map.mp hl
  rcases List.mem_cons.mp hcl with h | h
  · exact h ▸ hexDigit_mem _
  · rcases List.mem_cons.mp h with h' | h'
    · exact h' ▸ hexDigit_mem _
    · exact absurd h' (List.not_mem_nil c)

/-- UTF-8 encoding is one byte per character on ASCII character lists. -/
theorem utf8Len_ascii : ∀ {cs : List Char}, (∀ c ∈ cs, c.toNat < 128) →
    ((cs.map fun c => utf8EncodeNat c.toNat).flatten).length = cs.length
  | [], _ => rfl
  | c :: t, h => by
    rw [List.map_cons, List.flatten_cons, List.length_append,
      utf8Len_ascii (fun d hd => h d (List.mem_cons_of_mem _ hd)), List.length_cons]
    have hc : c.toNat < 128 := h c (List.mem_cons_self c t)
    have h1 : (utf8EncodeNat c.toNat).length = 1 := by
      unfold utf8EncodeNat
      rw [if_pos hc]
      rfl
    omega

/-- UTF-8 encoding is one byte per character on ASCII strings. -/
theorem utf8Bytes_length_of_ascii {s : String} (h : ∀ c ∈ s.toList, c.toNat < 128) :
    (utf8Bytes s).length = s.length :=
  utf8Len_ascii h

theorem hmacSha256Hex_length (secret s : String) : (hmacSha256Hex secret s).length = 64 := by
  unfold hmacSha256Hex
  rw [toHex_length, hmacSha256_length]

theorem hmacSha256Hex_mem {secret s : String} {c : Char}
    (hc : c ∈ (hmacSha256Hex secret s).toList) : c ∈ "0123456789abcdef".toList :=
  toHex_mem hc

theorem hmacSha256Hex_utf8_length (secret s : String) :
    (utf8Bytes (hmacSha256Hex secret s)).length = 64 := by
  rw [utf8Bytes_length_of_ascii, hmacSha256Hex_length]
  intro c hc
  exact hexChars_ascii c (hmacSha256Hex_mem hc)

/-- `generateSignature` with all-default arguments, unfolded. -/
theorem generateSignature_eq (v : SignatureValidator) (P : Params) :
    v.generateSignature P none none =
      hmacSha256Hex v.secret (buildSignString (filterParams defaultExcludeKeys P)) :=
  rfl

theorem timingSafeEqualStr_self (a : String) : timingSafeEqualStr a a = true := by
  simp [timingSafeEqualStr]

/-! ## External timestamp insertion (C10) -/

/-- When `params` already holds a `timestamp` entry that survives the
emptiness filter, overwriting it after filtering (what
`generateSignature` does with an external timestamp) equals filtering the
map whose `timestamp` entry was overwritten. -/
theorem filter_setKey_timestamp : ∀ {P : Params} {ts : JVal} (t : Int),
    List.lookup "timestamp" P = some ts → isValidValue ts = true →
    jsSetKey (filterParams defaultExcludeKeys P) "timestamp" (.num (toString t)) =
      filterParams defaultExcludeKeys (jsSetKey P "timestamp" (.num (toString t)))
  | [], ts, t, hts, hval => by simp [List.lookup] at hts
  | (k, v) :: T, ts, t, hts, hval => by
    by_cases hk : (k == "timestamp") = true
    · obtain rfl : k = "timestamp" := eq_of_beq hk
      have hts' : ts = v := by
        simp only [List.lookup, beq_self_eq_true] at hts
        exact (Option.some.inj hts).symm
      subst hts'
      unfold filterParams
      rw [List.filter_cons, if_pos (by simp [defaultExcludeKeys, hval])]
      show jsSetKey (("timestamp", ts) :: _) "timestamp" _ = _
      rw [jsSetKey, if_pos (by decide), jsSetKey, if_pos (by decide),
        List.filter_cons, if_pos (by simp [defaultExcludeKeys, isValidValue])]
    · have hkne : k ≠ "timestamp" := by
        intro h
        exact absurd (beq_iff_eq.mpr h) (by simpa using hk)
      have hk2 : ("timestamp" == k) = false := beq_eq_false_iff_ne.mpr (Ne.symm hkne)
      have hkf : (k == "timestamp") = false := beq_eq_false_iff_ne.mpr hkne
      simp only [List.lookup, hk2] at hts
      unfold filterParams
      rw [jsSetKey, if_neg (by simp [hkf]), List.filter_cons]
      by_cases hkeep : (!defaultExcludeKeys.contains k && isValidValue v) = true
      · rw [if_pos hkeep, List.filter_cons, if_pos hkeep, jsSetKey, if_neg (by simp [hkf])]
        rw [show jsSetKey (List.filter (fun p => !defaultExcludeKeys.contains p.1 &&
          isValidValue p.2) T) "timestamp" (.num (toString t)) =
            jsSetKey (filterParams defaultExcludeKeys T) "timestamp" (.num (toString t)) from rfl]
        rw [filter_setKey_timestamp t hts hval]
        rfl
      · rw [if_neg hkeep, List.filter_cons, if_neg hkeep]
        exact filter_setKey_timestamp t hts hval

/-! ## Claim theorems -/

/-- C1: Round-trip — for every parameter map `P` and every non-empty,
non-whitespace secret, validating the signature `generateSignature`
produced for `P` (default exclude keys, no external timestamp, `null`
tolerance) returns `true`, at any clock reading. -/
theorem validate_roundtrip (v : SignatureValidator) (now : Int) (P : Params)
    (hsecret : jsTrim v.secret ≠ "") :
    v.validate now P (v.generateSignature P none none) none = true := by
  unfold SignatureValidator.validate
  rw [if_pos (show tsGatePasses now P none = true from rfl)]
  exact timingSafeEqualStr_self _

/-- Witness for C1 at a concrete map and secret. -/
theorem validate_roundtrip_witness :
    jsTrim "ck-f9821410aed88898ad13e75d" ≠ "" ∧
    (SignatureValidator.mk "ck-f9821410aed88898ad13e75d").validate 1700000000
      [("app_id", .str "A1"), ("amount", .num "39.99")]
      ((SignatureValidator.mk "ck-f9821410aed88898ad13e75d").generateSignature
        [("app_id", .str "A1"), ("amount", .num "39.99")] none none) none = true :=
  ⟨by decide, validate_roundtrip _ 1700000000 _ (by decide)⟩

/-- C5: Emptiness filtering — `_isValidValue` rejects exactly `null`,
`undefined`, the empty string, the empty array and the empty map (so `0`,
`false` and non-empty structures are retained), and the spec's example map
canonicalizes to exactly `amount=39.99&app_id=A1`. -/
theorem canonicalization_emptiness_filtering :
    (∀ val : JVal, isValidValue val = false ↔
      (val = .null ∨ val = .undefined ∨ val = .str "" ∨ val = .arr [] ∨ val = .obj [])) ∧
    buildSignString (filterParams defaultExcludeKeys
      [("app_id", .str "A1"), ("amount", .num "39.99"), ("email", .str ""),
       ("note", .null), ("extra", .obj [])]) = "amount=39.99&app_id=A1" := by
  constructor
  · intro val
    cases val with
    | str s => simp [isValidValue]
    | num r => simp [isValidValue]
    | bool b => simp [isValidValue]
    | null => simp [isValidValue]
    | undefined => simp [isValidValue]
    | arr xs => cases xs <;> simp [isValidValue]
    | obj l => cases l <;> simp [isValidValue]
  · rfl

/-- C6: Exclusion of signature fields — inserting an entry under key
`signature` (or `sign`) anywhere in the map changes neither the canonical
string nor the generated signature under the default exclude set. -/
theorem generateSignature_excludes_signature_fields (v : SignatureValidator)
    (P₁ P₂ : Params) (k val : String) (hk : k = "signature" ∨ k = "sign") :
    buildSignString (filterParams defaultExcludeKeys (P₁ ++ (k, .str val) :: P₂)) =
      buildSignString (filterParams defaultExcludeKeys (P₁ ++ P₂)) ∧
    v.generateSignature (P₁ ++ (k, .str val) :: P₂) none none =
      v.generateSignature (P₁ ++ P₂) none none := by
  have hfilter : filterParams defaultExcludeKeys (P₁ ++ (k, .str val) :: P₂) =
      filterParams defaultExcludeKeys (P₁ ++ P₂) := by
    unfold filterParams
    rw [List.filter_append, List.filter_append, List.filter_cons]
    rcases hk with rfl | rfl <;> simp [defaultExcludeKeys]
  exact ⟨by rw [hfilter], by rw [generateSignature_eq, generateSignature_eq, hfilter]⟩

/-- Witness for C6 with the spec's `{signature: "deadbeef"}` example. -/
theorem generateSignature_excludes_signature_fields_witness :
    ("signature" = "signature" ∨ "signature" = "sign") ∧
    buildSignString (filterParams defaultExcludeKeys
      ([("app_id", .str "A1"), ("amount", .num "39.99")] ++ ("signature", .str "deadbeef") :: [])) =
    buildSignString (filterParams defaultExcludeKeys
      ([("app_id", .str "A1"), ("amount", .num "39.99")] ++ [])) :=
  ⟨Or.inl rfl,
   (generateSignature_excludes_signature_fields ⟨"k0"⟩ [("app_id", .str "A1"), ("amount", .num "39.99")]
     [] "signature" "deadbeef" (Or.inl rfl)).1⟩

/-- C7: Constructor precondition — construction fails (the JS constructor
throws) exactly when the secret is empty or all-whitespace; every other
secret yields an instance.  All other operations modelled here are total
functions, so the constructor is the only failure point. -/
theorem make_fails_iff_blank_secret (secret : String) :
    SignatureValidator.make secret = none ↔ jsTrim secret = "" := by
  unfold SignatureValidator.make
  constructor
  · intro h
    by_contra hne
    have hs : secret ≠ "" := fun e => hne (by rw [e]; rfl)
    rw [if_neg (by simp [hs, hne])] at h
    exact Option.noConfusion h
  · intro h
    rw [if_pos (by simp [h])]

/-- C8: Signature shape — for every parameter map and non-blank secret the
generated signature has exactly 64 characters, all lowercase hex digits. -/
theorem generateSignature_shape (v : SignatureValidator) (P : Params)
    (hsecret : jsTrim v.secret ≠ "") :
    (v.generateSignature P none none).length = 64 ∧
    ∀ c ∈ (v.generateSignature P none none).toList, c ∈ "0123456789abcdef".toList := by
  rw [generateSignature_eq]
  exact ⟨hmacSha256Hex_length _ _, fun _ hc => hmacSha256Hex_mem hc⟩

/-- Witness for C8 on the empty parameter map. -/
theorem generateSignature_shape_witness :
    jsTrim "k1" ≠ "" ∧ ((SignatureValidator.mk "k1").generateSignature [] none none).length = 64 :=
  ⟨by decide, (generateSignature_shape ⟨"k1"⟩ [] (by decide)).1⟩


/-- C9 (amended): `generateSignature` is a pure function of its arguments,
and `validate` is a pure function of its arguments *plus the clock
reading*; when `timestampTolerance` is `null` the clock reading is
irrelevant. -/
theorem determinism_with_clock (v : SignatureValidator) (P : Params) (ts : Option Int)
    (ex : Option (List String)) (now : Int) (sig : String) (tol : Option Int) :
    v.generateSignature P ts ex = v.generateSignature P ts ex ∧
    v.validate now P sig tol = v.validate now P sig tol ∧
    ∀ now₁ now₂ : Int, v.validate now₁ P sig none = v.validate now₂ P sig none :=
  ⟨rfl, rfl, fun _ _ => rfl⟩

/-- C9 counterexample: with a tolerance supplied, `validate` reads the
clock, so two invocations with identical `(params, signature, tolerance)`
arguments can differ — the claim's "depends on nothing outside the listed
inputs" fails on the code. -/
theorem validate_clock_dependence :
    (SignatureValidator.mk "k2").validate 1000 [("timestamp", .num "1000")]
      ((SignatureValidator.mk "k2").generateSignature [("timestamp", .num "1000")] none none)
      (some 300) = true ∧
    (SignatureValidator.mk "k2").validate 2000 [("timestamp", .num "1000")]
      ((SignatureValidator.mk "k2").generateSignature [("timestamp", .num "1000")] none none)
      (some 300) = false := by
  constructor
  · unfold SignatureValidator.validate
    rw [if_pos (show tsGatePasses 1000 [("timestamp", .num "1000")] (some 300) = true by decide)]
    exact timingSafeEqualStr_self _
  · have h : tsGatePasses 2000 [("timestamp", .num "1000")] (some 300) = false := by decide
    unfold SignatureValidator.validate
    rw [h]
    simp

/-- C2 counterexample: the replay gate tests JS *truthiness* of
`params.timestamp`, so the present-but-falsy timestamp `0` skips the
staleness check entirely and a correctly signed stale message validates as
`true`, where the claim demands `false`. -/
theorem validate_replay_zero_timestamp_accepted :
    (SignatureValidator.mk "k3").validate 1700000000 [("timestamp", .num "0")]
      ((SignatureValidator.mk "k3").generateSignature [("timestamp", .num "0")] none none)
      (some 300) = true := by
  unfold SignatureValidator.validate
  rw [if_pos (show tsGatePasses 1700000000 [("timestamp", .num "0")] (some 300) = true by decide)]
  exact timingSafeEqualStr_self _

/-- C2 (amended): for a parameter map whose `timestamp` entry is a number
with a *truthy* (nonzero, non-`NaN`) value `m / 10 ^ k`, a non-null
tolerance, and `|now - m / 10 ^ k|` beyond the tolerance, `validate`
returns `false` for every supplied signature — the replay gate fails fast
before any signature comparison can succeed. -/
theorem validate_replay_window_truthy (v : SignatureValidator) (now : Int) (P : Params)
    (sig : String) (tol : Int) (r : String) (m : Int) (k : Nat)
    (hts : List.lookup "timestamp" P = some (.num r))
    (hq : parseDecimal r = some (m, k)) (hm0 : m ≠ 0)
    (hfar : ¬(|now * 10 ^ k - m| ≤ tol * 10 ^ k)) :
    v.validate now P sig (some tol) = false := by
  have hr0 : r ≠ "0" := by
    intro h
    rw [h, show parseDecimal "0" = some (0, 0) from by decide] at hq
    exact hm0 (congrArg Prod.fst (Option.some.inj hq)).symm
  have hrn : r ≠ "NaN" := by
    intro h
    rw [h, show parseDecimal "NaN" = none from by decide] at hq
    exact Option.noConfusion hq
  have htruthy : jsTruthy (.num r) = true := by simp [jsTruthy, hr0, hrn]
  have hcheck : checkTimestamp now (.num r) tol = false := by
    simp only [checkTimestamp]
    rw [hq]
    simp [hfar]
  have hgate : tsGatePasses now P (some tol) = false := by
    unfold tsGatePasses jsProp
    rw [hts]
    simp only [Option.getD_some]
    rw [if_pos htruthy, hcheck]
  unfold SignatureValidator.validate
  rw [hgate]
  simp

/-- Witness for C2 (amended): the spec's `now - 600` instance with
tolerance `300`, rejected for an arbitrary signature string. -/
theorem validate_replay_window_truthy_witness :
    List.lookup "timestamp" ([("timestamp", JVal.num "1699999400")] : Params) =
      some (.num "1699999400") ∧
    parseDecimal "1699999400" = some (1699999400, 0) ∧
    (1699999400 : Int) ≠ 0 ∧
    ¬(|(1700000000 : Int) * 10 ^ (0 : Nat) - 1699999400| ≤ 300 * 10 ^ (0 : Nat)) ∧
    (SignatureValidator.mk "k4").validate 1700000000 [("timestamp", .num "1699999400")]
      "an-arbitrary-signature" (some 300) = false :=
  ⟨rfl, by decide, by decide, by decide,
   validate_replay_window_truthy _ 1700000000 _ "an-arbitrary-signature" 300 "1699999400"
     1699999400 0 rfl (by decide) (by decide) (by decide)⟩

/-- C3 counterexample: the claim covers *every* map and lists a
non-parseable timestamp as a failure resolved to `false`, but the falsy
empty-string timestamp skips the gate, so a correctly signed message with
`timestamp: ""` (non-numeric, non-parseable) validates as `true`. -/
theorem validate_empty_string_timestamp_accepted :
    (SignatureValidator.mk "k5").validate 1700000000 [("timestamp", .str "")]
      ((SignatureValidator.mk "k5").generateSignature [("timestamp", .str "")] none none)
      (some 300) = true := by
  unfold SignatureValidator.validate
  rw [if_pos (show tsGatePasses 1700000000 [("timestamp", .str "")] (some 300) = true by decide)]
  exact timingSafeEqualStr_self _

/-- C3 (amended): `validate` is a total function (the model never
raises), and each listed per-message failure resolves to `false` whenever
the failing check actually runs: a truthy non-parseable string timestamp
fails the gate for every supplied signature, and a supplied signature
whose byte length differs from the 64 bytes of the expected hex digest
fails the constant-time comparison under every tolerance. -/
theorem validate_fail_closed (v : SignatureValidator) (now : Int) (P : Params)
    (sig : String) (tol : Int) (tolOpt : Option Int) (s : String) :
    (List.lookup "timestamp" P = some (.str s) → s ≠ "" → parseIntJS s = none →
      v.validate now P sig (some tol) = false) ∧
    ((utf8Bytes sig).length ≠ 64 → v.validate now P sig tolOpt = false) := by
  constructor
  · intro hts hs hbad
    have htruthy : jsTruthy (.str s) = true := by simp [jsTruthy, hs]
    have hcheck : checkTimestamp now (.str s) tol = false := by
      simp only [checkTimestamp, jsToString]
      rw [hbad]
    have hgate : tsGatePasses now P (some tol) = false := by
      unfold tsGatePasses jsProp
      rw [hts]
      simp only [Option.getD_some]
      rw [if_pos htruthy, hcheck]
    unfold SignatureValidator.validate
    rw [hgate]
    simp
  · intro hlen
    unfold SignatureValidator.validate
    by_cases hgate : tsGatePasses now P tolOpt = true
    · rw [if_pos hgate, generateSignature_eq]
      unfold timingSafeEqualStr
      rw [show ((utf8Bytes (hmacSha256Hex v.secret
          (buildSignString (filterParams defaultExcludeKeys P)))).length ==
          (utf8Bytes sig).length) = false from by
        rw [hmacSha256Hex_utf8_length]
        exact beq_eq_false_iff_ne.mpr fun h => hlen h.symm]
      simp
    · rw [if_neg hgate]

/-- Witness for C3 (amended), at a concrete non-parseable timestamp and a
concrete short signature. -/
theorem validate_fail_closed_witness :
    (List.lookup "timestamp" ([("timestamp", JVal.str "not-a-number")] : Params) =
        some (.str "not-a-number") ∧
      "not-a-number" ≠ "" ∧ parseIntJS "not-a-number" = none ∧
      (SignatureValidator.mk "k7").validate 1700000000 [("timestamp", .str "not-a-number")]
        "sig" (some 300) = false) ∧
    ((utf8Bytes "sig").length ≠ 64 ∧
      (SignatureValidator.mk "k7").validate 1700000000 [("timestamp", .str "not-a-number")]
        "sig" none = false) :=
  ⟨⟨rfl, by decide, by decide,
    (validate_fail_closed _ 1700000000 _ "sig" 300 none "not-a-number").1 rfl
      (by decide) (by decide)⟩,
   ⟨by decide,
    (validate_fail_closed _ 1700000000 _ "sig" 300 none "not-a-number").2 (by decide)⟩⟩

/-- C4: Order independence — semantically equal parameter maps (same
key/value pairs up to insertion order at every nesting depth, equal values)
produce identical canonical strings and identical signatures. -/
theorem generateSignature_order_independence (v : SignatureValidator) (P Q : Params)
    (h : JEquiv (.obj P) (.obj Q)) :
    buildSignString (filterParams defaultExcludeKeys P) =
      buildSignString (filterParams defaultExcludeKeys Q) ∧
    v.generateSignature P none none = v.generateSignature Q none none := by
  have hb := buildSignString_filter_congr defaultExcludeKeys h
  exact ⟨hb, by rw [generateSignature_eq, generateSignature_eq, hb]⟩

/-- Witness for C4: a two-key map with a nested map, both reordered. -/
theorem generateSignature_order_independence_witness :
    JEquiv (.obj [("b", .str "1"), ("a", .obj [("y", .num "2"), ("x", .bool true)])])
      (.obj [("a", .obj [("x", .bool true), ("y", .num "2")]), ("b", .str "1")]) ∧
    buildSignString (filterParams defaultExcludeKeys
      [("b", .str "1"), ("a", .obj [("y", .num "2"), ("x", .bool true)])]) =
    buildSignString (filterParams defaultExcludeKeys
      [("a", .obj [("x", .bool true), ("y", .num "2")]), ("b", .str "1")]) := by
  have heInner : JEntriesEquiv [("y", JVal.num "2"), ("x", JVal.bool true)]
      [("y", JVal.num "2"), ("x", JVal.bool true)] :=
    .cons (.num "2") (.cons (.bool true) .nil)
  have hpInner : List.Perm [("y", JVal.num "2"), ("x", JVal.bool true)]
      [("x", JVal.bool true), ("y", JVal.num "2")] :=
    List.Perm.swap ("x", JVal.bool true) ("y", JVal.num "2") []
  have hinner : JEquiv (.obj [("y", JVal.num "2"), ("x", JVal.bool true)])
      (.obj [("x", JVal.bool true), ("y", JVal.num "2")]) :=
    JEquiv.obj (by decide) heInner hpInner
  have he : JEntriesEquiv
      [("b", JVal.str "1"), ("a", JVal.obj [("y", JVal.num "2"), ("x", JVal.bool true)])]
      [("b", JVal.str "1"), ("a", JVal.obj [("x", JVal.bool true), ("y", JVal.num "2")])] :=
    .cons (.str "1") (.cons hinner .nil)
  have hp : List.Perm
      [("b", JVal.str "1"), ("a", JVal.obj [("x", JVal.bool true), ("y", JVal.num "2")])]
      [("a", JVal.obj [("x", JVal.bool true), ("y", JVal.num "2")]), ("b", JVal.str "1")] :=
    List.Perm.swap ("a", JVal.obj [("x", JVal.bool true), ("y", JVal.num "2")])
      ("b", JVal.str "1") []
  have hequiv := JEquiv.obj (by decide) he hp
  exact ⟨hequiv, (generateSignature_order_independence ⟨"k8"⟩ _ _ hequiv).1⟩

/-- C10: an externally supplied timestamp unconditionally overwrites a
`timestamp` entry already present (and surviving the emptiness filter):
signing with the external value equals signing the map whose `timestamp`
entry was replaced, with no external value. -/
theorem generateSignature_external_timestamp_overwrites (v : SignatureValidator)
    (P : Params) (ts : JVal) (t : Int)
    (hts : List.lookup "timestamp" P = some ts) (hval : isValidValue ts = true) :
    v.generateSignature P (some t) none =
      v.generateSignature (jsSetKey P "timestamp" (.num (toString t))) none none := by
  show hmacSha256Hex v.secret (buildSignString
      (jsSetKey (filterParams defaultExcludeKeys P) "timestamp" (.num (toString t)))) = _
  rw [filter_setKey_timestamp t hts hval]
  rfl

/-- Witness for C10 at a concrete map holding a live `timestamp` entry. -/
theorem generateSignature_external_timestamp_overwrites_witness :
    List.lookup "timestamp" ([("a", JVal.str "v"), ("timestamp", JVal.num "5")] : Params) =
      some (.num "5") ∧
    isValidValue (.num "5") = true ∧
    (SignatureValidator.mk "k9").generateSignature
      [("a", .str "v"), ("timestamp", .num "5")] (some 99) none =
    (SignatureValidator.mk "k9").generateSignature
      (jsSetKey [("a", .str "v"), ("timestamp", .num "5")] "timestamp"
        (.num (toString (99 : Int)))) none none :=
  ⟨rfl, by decide,
   generateSignature_external_timestamp_overwrites _ _ _ 99 rfl (by decide)⟩
